import Mathlib

/-!
Verification of the FDJ-SLAYER core against its specification.

The development shallowly embeds the two core modules:
* `fdj_slayer/draw.py` — entropy combination, seed derivation (`generate_seed`),
  deterministic draw sampling (`make_draw`) and batch generation (`generate_draws`);
* `fdj_slayer/stats.py` — frequency tables, chi-square based randomness
  assessment (`analyze_randomness` and its helpers).

External library calls are modelled as parameters with their documented
contracts: the hash functions `hashlib.sha512 / blake2b / sha256` become
abstract byte-list functions, the p-value computed by `scipy.stats.chisquare`
becomes an abstract function of the chi-square statistic and the degrees of
freedom, and the pseudo-random generator of the `random` module becomes an
explicit state machine (`PRNG`) whose `nextBelow` obeys the `randbelow`
contract.  `random.shuffle` and `random.sample` are embedded by their CPython
algorithms (Fisher-Yates, and pool-based swap-remove selection).  Entropy
sources are byte strings, modelled as lists of naturals; `"".join` becomes
`List.flatten` on the encoded sources.
-/

/-- Constant from `fdj_slayer/constants.py`: numbers drawn per draw. -/
def NUMBER_OF_NUMBERS : Nat := 5

/-- Constant from `fdj_slayer/constants.py`: ceiling of the numbers range. -/
def MAX_NUMBER : Nat := 50

/-- Constant from `fdj_slayer/constants.py`: stars drawn per draw. -/
def NUMBER_OF_STARS : Nat := 2

/-- Constant from `fdj_slayer/constants.py`: ceiling of the stars range. -/
def MAX_STAR : Nat := 12

/-- An entropy source: an opaque byte string (its UTF-8 encoding). -/
abbrev Src := List Nat

/-- Swap the elements at positions `i` and `j`; the list is unchanged when an
index is out of range (Python's `x[i], x[j] = x[j], x[i]` never sees an
out-of-range index, since `randbelow` stays in range). -/
def listSwap (l : List α) (i j : Nat) : List α :=
  match l[i]?, l[j]? with
  | some a, some b => (l.set i b).set j a
  | _, _ => l

/-- One downward pass of CPython's `random.shuffle` (Fisher-Yates): for
`i = n-1, ..., 1`, swap position `i` with a drawn position `j ≤ i`.  The drawn
positions are supplied by the list `js`, head first. -/
def fyAux (l : List α) : Nat → List Nat → List α
  | 0, _ => l
  | i + 1, js => fyAux (listSwap l (i + 1) (js.headD 0)) i js.tail

/-- `random.shuffle` on a list, with the random indices made explicit. -/
def fyShuffle (l : List α) (js : List Nat) : List α :=
  fyAux l (l.length - 1) js

/-- The combined entropy sequence of `generate_seed`:
`entropy_sources = base_pool.copy() if base_pool else []` followed by
`entropy_sources.extend(self.get_dynamic_entropy_pool())`.  An absent
(`None`) base pool behaves exactly like an empty one, so the base pool is
modelled as a plain list and Python truthiness as an `isEmpty` test. -/
def combinedPool (base dyn : List Src) : List Src :=
  (if base.isEmpty then [] else base) ++ dyn

/-- The two hexadecimal digits of one byte, as produced by `hexdigest`. -/
def hexDigits (b : Nat) : List Nat :=
  [b / 16, b % 16]

/-- `int(digest.hexdigest(), 16)`: the hex digits of the digest bytes read as
one base-16 unsigned integer. -/
def digestToInt (bs : List Nat) : Nat :=
  (bs.flatMap hexDigits).foldl (fun a d => a * 16 + d) 0

/-- `Draw.generate_seed` from `fdj_slayer/draw.py`, with the dynamic pool, the
shuffle's random indices and the three `hashlib` digests made explicit:
concatenate base and dynamic pool, shuffle, join with no separator, then chain
SHA-512, BLAKE2b and SHA-256 and read the final hex digest as an integer. -/
def generate_seed (h512 hb2 h256 : List Nat → List Nat)
    (base dyn : List Src) (js : List Nat) : Nat :=
  digestToInt (h256 (hb2 (h512 ((fyShuffle (combinedPool base dyn) js).flatten))))

/-- The state machine interface of the `random` module's generator.
`nextBelow st n` models `randbelow(n)` (used by `shuffle` and `sample`) and
carries that call's documented contract; `reseed` models `random.seed`. -/
structure PRNG (σ : Type) where
  reseed : Nat → σ
  nextBelow : σ → Nat → Nat × σ
  nextBelow_lt : ∀ st n, 0 < n → (nextBelow st n).1 < n

/-- The sequence of `randbelow(i+1)` values consumed by a shuffle of a list of
length `n + 1`, drawn for `i = n, ..., 1`, threading the generator state. -/
def drawJs {σ : Type} (G : PRNG σ) : σ → Nat → List Nat × σ
  | st, 0 => ([], st)
  | st, i + 1 =>
    let r := G.nextBelow st (i + 2)
    let rest := drawJs G r.2 i
    (r.1 :: rest.1, rest.2)

/-- CPython's pool-based `random.sample` selection loop: `k` times, draw
`j = randbelow(len(pool))`, take `pool[j]`, move the last active element into
slot `j` and shrink the active region by one. -/
def sampleAux {σ : Type} (G : PRNG σ) : List Nat → Nat → σ → List Nat × σ
  | _, 0, st => ([], st)
  | pool, k + 1, st =>
    let r := G.nextBelow st pool.length
    let x := pool.getD r.1 0
    let pool' := (pool.set r.1 (pool.getD (pool.length - 1) 0)).dropLast
    let rest := sampleAux G pool' k r.2
    (x :: rest.1, rest.2)

/-- A lottery draw, the dictionary built by `Draw.make_draw`. -/
structure DrawRec where
  seed : Nat
  numbers : List Nat
  stars : List Nat
deriving DecidableEq, Repr

/-- The seed-to-draw step of `Draw.make_draw`: `random.seed(seed)` followed by
`random.sample(range(1, MAX_NUMBER + 1), NUMBER_OF_NUMBERS)`, then
`random.sample(range(1, MAX_STAR + 1), NUMBER_OF_STARS)` continuing on the
same re-seeded stream, each result sorted ascending. -/
def sampleDraw {σ : Type} (G : PRNG σ) (seed : Nat) : DrawRec × σ :=
  let st0 := G.reseed seed
  let ns := sampleAux G (List.range' 1 MAX_NUMBER) NUMBER_OF_NUMBERS st0
  let ss := sampleAux G (List.range' 1 MAX_STAR) NUMBER_OF_STARS ns.2
  (⟨seed, List.insertionSort (· ≤ ·) ns.1, List.insertionSort (· ≤ ·) ss.1⟩, ss.2)

/-- `Draw.make_draw`: derive a seed (consuming shuffle randomness from the
module-level generator state `st`), then re-seed the very same generator with
the derived seed and sample the draw.  The state produced by the shuffle is
discarded by `random.seed(seed)`, exactly as in the source. -/
def makeDraw {σ : Type} (G : PRNG σ) (h512 hb2 h256 : List Nat → List Nat)
    (base dyn : List Src) (st : σ) : DrawRec × σ :=
  let r := drawJs G st ((combinedPool base dyn).length - 1)
  let seed := generate_seed h512 hb2 h256 base dyn r.1
  sampleDraw G seed

/-- The loop body of `Draw.generate_draws`, threading the generator state;
`dyns i` is the fresh dynamic pool read for iteration `i`. -/
def genFrom {σ : Type} (G : PRNG σ) (h512 hb2 h256 : List Nat → List Nat)
    (base : List Src) (dyns : Nat → List Src) : σ → Nat → Nat → List DrawRec × σ
  | st, _, 0 => ([], st)
  | st, i, n + 1 =>
    let r := makeDraw G h512 hb2 h256 base (dyns i) st
    let rest := genFrom G h512 hb2 h256 base dyns r.2 (i + 1) n
    (r.1 :: rest.1, rest.2)

/-- `Draw.generate_draws`: one static pool `base` is shared by all `n`
iterations, each of which reads its own dynamic pool and appends one draw.
The progress bar and the `time.sleep` call are presentation only. -/
def generate_draws {σ : Type} (G : PRNG σ) (h512 hb2 h256 : List Nat → List Nat)
    (base : List Src) (dyns : Nat → List Src) (st : σ) (n : Nat) : List DrawRec × σ :=
  genFrom G h512 hb2 h256 base dyns st 0 n

/-- The configuration of `StatsAnalysis.__init__` in `fdj_slayer/stats.py`. -/
structure StatsAnalysis where
  max_number : Nat
  max_star : Nat
  number_of_numbers : Nat
  number_of_stars : Nat

/-- `StatsAnalysis._extract_numbers_and_stars`: flatten all numbers and all
stars of the batch, in batch order. -/
def _extract_numbers_and_stars (draws : List DrawRec) : List Nat × List Nat :=
  (draws.flatMap (fun d => d.numbers), draws.flatMap (fun d => d.stars))

/-- `StatsAnalysis._calculate_frequencies`: the insertion-ordered dictionary
`{n: values.count(n) for n in 1..max_value}`, as an association list. -/
def _calculate_frequencies (values : List Nat) (max_value : Nat) : List (Nat × Nat) :=
  (List.range' 1 max_value).map fun n => (n, values.count n)

/-- `StatsAnalysis._perform_chi_square_test`: `scipy.stats.chisquare` computes
the statistic `sum((observed - expected)^2 / expected)` over the categories
and a p-value from the chi-square distribution with `max_value - 1` degrees of
freedom; the distribution's tail function is the abstract parameter `pv`. -/
def _perform_chi_square_test (pv : ℚ → Nat → ℚ) (counts : List (Nat × Nat))
    (expected_freq : ℚ) (max_value : Nat) : ℚ × ℚ :=
  let observed := counts.map fun c => (c.2 : ℚ)
  let chi2 := (observed.map fun o => (o - expected_freq) ^ 2 / expected_freq).sum
  (chi2, pv chi2 (max_value - 1))

/-- `StatsAnalysis._find_min_max_frequencies`: the values attaining the
minimum count and the values attaining the maximum count (all ties kept),
with the counts themselves.  Python's `min`/`max` are only reached on a
non-empty dictionary (`max_value > 0` is checked upstream by the division). -/
def _find_min_max_frequencies (counts : List (Nat × Nat)) :
    (List Nat × Nat) × (List Nat × Nat) :=
  let min_count := ((counts.map fun c => c.2).min?).getD 0
  let max_count := ((counts.map fun c => c.2).max?).getD 0
  ((((counts.filter fun c => c.2 = min_count).map fun c => c.1), min_count),
   (((counts.filter fun c => c.2 = max_count).map fun c => c.1), max_count))

/-- `StatsAnalysis._calculate_statistics`: the variance
`sum((count - expected)^2) / len(counts)` (the source displays its real square
root, a total operation) and the variation percentage, which is `0` when the
expected frequency is `0`. -/
def _calculate_statistics (counts : List (Nat × Nat)) (expected_freq : ℚ)
    (min_count max_count : Nat) : ℚ × ℚ :=
  let std_dev_sq :=
    ((counts.map fun c => ((c.2 : ℚ) - expected_freq) ^ 2).sum) / (counts.length : ℚ)
  let variation_pct :=
    if expected_freq = 0 then 0
    else ((max_count : ℚ) - (min_count : ℚ)) / expected_freq * 100
  (std_dev_sq, variation_pct)

/-- `StatsAnalysis._assess_randomness`: the verdict string, decided by the
fixed `0.05` threshold. -/
def _assess_randomness (p_value : ℚ) : String :=
  if p_value > 1 / 20 then "likely random" else "possibly biased"

/-- The per-value-class slice of the analysis results dictionary. -/
structure DatasetResults where
  frequencies : List (Nat × Nat)
  expected_freq : ℚ
  chi2 : ℚ
  p_value : ℚ
  min_values : List Nat × Nat
  max_values : List Nat × Nat
  std_dev_sq : ℚ
  variation_pct : ℚ
  assessment : String

/-- `StatsAnalysis._analyze_dataset`.  With `max_value = 0` the source raises
`ZeroDivisionError` at `len(values) / max_value`; otherwise every step is
total (`scipy` returns `nan` rather than raising on degenerate input). -/
def _analyze_dataset (pv : ℚ → Nat → ℚ) (values : List Nat) (max_value : Nat) :
    Except String DatasetResults :=
  if max_value = 0 then Except.error "division by zero"
  else
    let counts := _calculate_frequencies values max_value
    let expected_freq := (values.length : ℚ) / (max_value : ℚ)
    let chi2_result := _perform_chi_square_test pv counts expected_freq max_value
    let min_max := _find_min_max_frequencies counts
    let stats_data := _calculate_statistics counts expected_freq min_max.1.2 min_max.2.2
    Except.ok
      { frequencies := counts
        expected_freq := expected_freq
        chi2 := chi2_result.1
        p_value := chi2_result.2
        min_values := min_max.1
        max_values := min_max.2
        std_dev_sq := stats_data.1
        variation_pct := stats_data.2
        assessment := _assess_randomness chi2_result.2 }

/-- The full analysis results dictionary of `analyze_randomness`. -/
structure AnalysisResults where
  sample_size : Nat
  number_results : DatasetResults
  star_results : DatasetResults

/-- `StatsAnalysis.analyze_randomness`: raise `ValueError` on an empty batch,
otherwise analyze the numbers and then the stars. -/
def analyze_randomness (pv : ℚ → Nat → ℚ) (S : StatsAnalysis)
    (draws : List DrawRec) : Except String AnalysisResults :=
  if draws.isEmpty then
    Except.error "Cannot analyze randomness with empty draws list"
  else
    let p := _extract_numbers_and_stars draws
    match _analyze_dataset pv p.1 S.max_number with
    | Except.error e => Except.error e
    | Except.ok nr =>
      match _analyze_dataset pv p.2 S.max_star with
      | Except.error e => Except.error e
      | Except.ok sr =>
        Except.ok { sample_size := draws.length, number_results := nr, star_results := sr }

/-- A cell-addressed heap of Python list objects, used to state frame
properties about mutation and aliasing: each cell holds the current contents
of one list of entropy sources, and variables are cell indices. -/
abbrev Cell := List Src

/-- `Draw.generate_seed` with the heap made explicit.  `base_pool.copy()`
allocates a fresh cell; `extend` and `random.shuffle` mutate that fresh cell
only; the cell `baseRef` of the caller's `base_pool` is never written. -/
def generateSeedHeap (h512 hb2 h256 : List Nat → List Nat) (js : List Nat)
    (heap : List Cell) (baseRef : Nat) (dyn : List Src) : Nat × List Cell :=
  let base := heap.getD baseRef []
  let es0 := if base.isEmpty then [] else base
  let esRef := heap.length
  let heap1 := heap ++ [es0]
  let es1 := es0 ++ dyn
  let heap2 := heap1.set esRef es1
  let es2 := fyShuffle es1 js
  let heap3 := heap2.set esRef es2
  (digestToInt (h256 (hb2 (h512 es2.flatten))), heap3)

/-- `Draw.make_draw` with the heap made explicit; the sampling step never
touches the heap. -/
def makeDrawHeap {σ : Type} (G : PRNG σ) (h512 hb2 h256 : List Nat → List Nat)
    (heap : List Cell) (baseRef : Nat) (dyn : List Src) (st : σ) :
    DrawRec × List Cell × σ :=
  let base := heap.getD baseRef []
  let r := drawJs G st ((combinedPool base dyn).length - 1)
  let sh := generateSeedHeap h512 hb2 h256 r.1 heap baseRef dyn
  let d := sampleDraw G sh.1
  (d.1, sh.2, d.2)

/-- The loop of `Draw.generate_draws` with the heap made explicit. -/
def genFromHeap {σ : Type} (G : PRNG σ) (h512 hb2 h256 : List Nat → List Nat)
    (baseRef : Nat) (dyns : Nat → List Src) :
    List Cell → σ → Nat → Nat → List DrawRec × List Cell × σ
  | heap, st, _, 0 => ([], heap, st)
  | heap, st, i, n + 1 =>
    let r := makeDrawHeap G h512 hb2 h256 heap baseRef (dyns i) st
    let rest := genFromHeap G h512 hb2 h256 baseRef dyns r.2.1 r.2.2 (i + 1) n
    (r.1 :: rest.1, rest.2)

/-- `Draw.generate_draws` over the heap model: the static pool lives in cell
`baseRef` and is read by every iteration. -/
def generate_draws_heap {σ : Type} (G : PRNG σ) (h512 hb2 h256 : List Nat → List Nat)
    (baseRef : Nat) (dyns : Nat → List Src) (heap : List Cell) (st : σ) (n : Nat) :
    List DrawRec × List Cell × σ :=
  genFromHeap G h512 hb2 h256 baseRef dyns heap st 0 n

/-- The seed formula exactly as the specification words it (section 4.2,
steps 3-6): for a permutation `p` of the combined pools, join with no
separator, hash with the 512-bit digest, re-hash the raw bytes with the
second keyless hash, hash that with the 256-bit digest and read its
hexadecimal representation as a base-16 unsigned integer. -/
def spec_seed_formula (h512 hb2 h256 : List Nat → List Nat) (p : List Src) : Nat :=
  digestToInt (h256 (hb2 (h512 p.flatten)))

/-- A tiny concrete generator satisfying the `randbelow` contract, used to
evaluate the model on concrete inputs. -/
def lcg : PRNG Nat where
  reseed := fun s => s
  nextBelow := fun st n => (st % n, st + 1)
  nextBelow_lt := fun st _ h => Nat.mod_lt st h

/-- Swapping two positions of a list permutes it. -/
theorem listSwap_perm {α : Type _} (l : List α) (i j : Nat) : (listSwap l i j).Perm l := by
  classical
  unfold listSwap
  cases hi : l[i]? with
  | none => simp
  | some a =>
    cases hj : l[j]? with
    | none => simp
    | some b =>
      obtain ⟨hilt, hie⟩ := List.getElem?_eq_some.1 hi
      obtain ⟨hjlt, hje⟩ := List.getElem?_eq_some.1 hj
      rw [List.perm_iff_count]
      intro c
      have hjlt' : j < (l.set i b).length := by simpa using hjlt
      have h1 := List.count_set a c (l.set i b) j hjlt'
      have h2 := List.count_set b c l i hilt
      have hset : (l.set i b)[j] = b := by
        rw [List.getElem_set]
        split
        · rfl
        · exact hje
      rw [hset] at h1
      rw [hie] at h2
      rw [h1, h2]
      simp only [beq_iff_eq]
      have hma : a ∈ l := hie ▸ List.getElem_mem hilt
      have hmb : b ∈ l := hje ▸ List.getElem_mem hjlt
      have hca : a = c → 1 ≤ List.count c l := fun h =>
        List.count_pos_iff.2 (h ▸ hma)
      have hcb : b = c → 1 ≤ List.count c l := fun h =>
        List.count_pos_iff.2 (h ▸ hmb)
      by_cases hac : a = c <;> by_cases hbc : b = c <;>
        simp only [hac, hbc, if_pos, if_neg, not_false_iff] <;>
        [skip; skip; skip; skip] <;>
        first
        | (have h9 := hca hac; omega)
        | (have h9 := hcb hbc; omega)
        | omega

/-- Every Fisher-Yates pass yields a permutation of its input. -/
theorem fyAux_perm {α : Type _} (i : Nat) (l : List α) (js : List Nat) :
    (fyAux l i js).Perm l := by
  induction i generalizing l js with
  | zero => simp [fyAux]
  | succ i ih =>
    rw [fyAux]
    exact (ih _ _).trans (listSwap_perm l (i + 1) (js.headD 0))

/-- The embedded `random.shuffle` yields a permutation of its input. -/
theorem fyShuffle_perm {α : Type _} (l : List α) (js : List Nat) :
    (fyShuffle l js).Perm l :=
  fyAux_perm (l.length - 1) l js

/-- The `if base_pool` truthiness test never changes the combined sequence:
it is always the concatenation of the two pools. -/
theorem combinedPool_eq_append (base dyn : List Src) :
    combinedPool base dyn = base ++ dyn := by
  unfold combinedPool
  split
  · next h => rw [List.isEmpty_iff.1 h]
  · rfl

/-- Swapping is positional: it commutes with mapping a function over the
list, so the elements' values never influence where they are sent. -/
theorem listSwap_map {α β : Type _} (f : α → β) (l : List α) (i j : Nat) :
    listSwap (l.map f) i j = (listSwap l i j).map f := by
  unfold listSwap
  cases hi : l[i]? with
  | none =>
    simp [List.getElem?_map, hi]
  | some a =>
    cases hj : l[j]? with
    | none => simp [List.getElem?_map, hi, hj]
    | some b => simp [List.getElem?_map, hi, hj, List.map_set]

/-- The Fisher-Yates pass is positional: it commutes with mapping. -/
theorem fyAux_map {α β : Type _} (f : α → β) (i : Nat) (l : List α) (js : List Nat) :
    fyAux (l.map f) i js = (fyAux l i js).map f := by
  induction i generalizing l js with
  | zero => simp [fyAux]
  | succ i ih =>
    rw [fyAux, fyAux, listSwap_map, ih]

/-- The embedded `random.shuffle` is positional: the permutation it applies
depends only on the drawn indices and the length, not on the contents. -/
theorem fyShuffle_map {α β : Type _} (f : α → β) (l : List α) (js : List Nat) :
    fyShuffle (l.map f) js = (fyShuffle l js).map f := by
  unfold fyShuffle
  rw [List.length_map, fyAux_map]

/-- One step of the pool-based sampling: taking `pool[j]`, overwriting slot
`j` with the last element and dropping the last slot removes exactly one
occurrence of `pool[j]` from the pool. -/
theorem swapRemove_perm (l : List Nat) (j : Nat) (hj : j < l.length) :
    (l.getD j 0 :: (l.set j (l.getD (l.length - 1) 0)).dropLast).Perm l := by
  have hl0 : 0 < l.length := Nat.lt_of_le_of_lt (Nat.zero_le j) hj
  have hb : l.getD (l.length - 1) 0 = l[l.length - 1] :=
    List.getD_eq_getElem l 0 (by omega)
  have hx : l.getD j 0 = l[j] := List.getD_eq_getElem l 0 hj
  set b := l.getD (l.length - 1) 0 with hbdef
  have hsetne : l.set j b ≠ [] := by
    intro h
    rw [List.set_eq_nil_iff] at h
    subst h
    simp at hl0
  have hlast : (l.set j b).getLast hsetne = b := by
    rw [List.getLast_eq_getElem]
    simp only [List.length_set]
    rw [List.getElem_set]
    split
    · rfl
    · exact hb.symm
  have e : (l.set j b).dropLast ++ [b] = l.set j b := by
    conv_rhs => rw [← List.dropLast_append_getLast hsetne, hlast]
  rw [List.perm_iff_count]
  intro c
  have hcnt : List.count c (l.set j b) =
      List.count c ((l.set j b).dropLast) + List.count c [b] := by
    conv_lhs => rw [← e]
    rw [List.count_append]
  have h2 := List.count_set b c l j hj
  rw [List.count_cons]
  simp only [List.count_singleton, beq_iff_eq] at hcnt h2 ⊢
  have hma : l[j] ∈ l := List.getElem_mem hj
  have hca : l.getD j 0 = c → 1 ≤ List.count c l := fun h =>
    List.count_pos_iff.2 (h ▸ hx ▸ hma)
  rw [hx] at hca ⊢
  by_cases hxc : l[j] = c <;> by_cases hbc : b = c <;>
    simp only [hxc, hbc, if_pos, if_neg, not_false_iff] at hcnt h2 ⊢ <;>
    first
    | (have h9 := hca hxc; omega)
    | omega

/-- The sampling loop always returns exactly `k` values. -/
theorem sampleAux_length {σ : Type} (G : PRNG σ) (k : Nat) :
    ∀ (pool : List Nat) (st : σ), ((sampleAux G pool k st).1).length = k := by
  induction k with
  | zero => intro pool st; simp [sampleAux]
  | succ k ih =>
    intro pool st
    simp only [sampleAux]
    simpa using ih _ _

/-- As long as the pool is duplicate-free and large enough, the sampling loop
returns distinct values, all drawn from the pool. -/
theorem sampleAux_nodup_mem {σ : Type} (G : PRNG σ) (k : Nat) :
    ∀ (pool : List Nat) (st : σ), pool.Nodup → k ≤ pool.length →
      ((sampleAux G pool k st).1).Nodup ∧
      ∀ x ∈ (sampleAux G pool k st).1, x ∈ pool := by
  induction k with
  | zero => intro pool st _ _; simp [sampleAux]
  | succ k ih =>
    intro pool st hnd hk
    have hn : 0 < pool.length := Nat.lt_of_lt_of_le (Nat.succ_pos k) hk
    have hj : (G.nextBelow st pool.length).1 < pool.length :=
      G.nextBelow_lt st pool.length hn
    have hperm := swapRemove_perm pool (G.nextBelow st pool.length).1 hj
    have hcons : (pool.getD (G.nextBelow st pool.length).1 0 ::
        (pool.set (G.nextBelow st pool.length).1
          (pool.getD (pool.length - 1) 0)).dropLast).Nodup :=
      hperm.symm.nodup hnd
    rw [List.nodup_cons] at hcons
    have hlen' : ((pool.set (G.nextBelow st pool.length).1
        (pool.getD (pool.length - 1) 0)).dropLast).length = pool.length - 1 := by
      rw [List.length_dropLast, List.length_set]
    have hk' : k ≤ ((pool.set (G.nextBelow st pool.length).1
        (pool.getD (pool.length - 1) 0)).dropLast).length := by omega
    have := ih _ ((G.nextBelow st pool.length).2) hcons.2 hk'
    simp only [sampleAux, List.nodup_cons, List.mem_cons]
    refine ⟨⟨fun hmem => hcons.1 (this.2 _ hmem), this.1⟩, ?_⟩
    intro x hx
    rcases hx with rfl | hx
    · exact hperm.mem_iff.1 (List.mem_cons_self _ _)
    · exact hperm.mem_iff.1 (List.mem_cons_of_mem _ (this.2 _ hx))

/-- A `random.sample` over `range(1, m + 1)` followed by `sorted(...)` gives
`k` distinct, strictly increasing values, all between `1` and `m`. -/
theorem sortedSample_props {σ : Type} (G : PRNG σ) (m k : Nat) (st : σ) (hk : k ≤ m) :
    (List.insertionSort (· ≤ ·) (sampleAux G (List.range' 1 m) k st).1).length = k ∧
    (List.insertionSort (· ≤ ·) (sampleAux G (List.range' 1 m) k st).1).Nodup ∧
    List.Sorted (· < ·) (List.insertionSort (· ≤ ·) (sampleAux G (List.range' 1 m) k st).1) ∧
    ∀ v ∈ List.insertionSort (· ≤ ·) (sampleAux G (List.range' 1 m) k st).1,
      1 ≤ v ∧ v ≤ m := by
  have hklen : k ≤ (List.range' 1 m).length := by rw [List.length_range']; exact hk
  have hbase := sampleAux_nodup_mem G k (List.range' 1 m) st (List.nodup_range' 1 m) hklen
  have hsortperm := List.perm_insertionSort (· ≤ ·) (sampleAux G (List.range' 1 m) k st).1
  have hnd : (List.insertionSort (· ≤ ·) (sampleAux G (List.range' 1 m) k st).1).Nodup :=
    hsortperm.symm.nodup hbase.1
  refine ⟨?_, hnd, ?_, ?_⟩
  · rw [hsortperm.length_eq, sampleAux_length]
  · exact (List.sorted_insertionSort (· ≤ ·) _).lt_of_le hnd
  · intro v hv
    have hvmem : v ∈ List.range' 1 m := hbase.2 v (hsortperm.mem_iff.1 hv)
    have := List.mem_range'_1.1 hvmem
    omega

/-- C1: `generate_seed` concatenates the static and dynamic pools, applies
the permutation chosen by the shuffle to the combined sequence, joins the
permuted strings with no separator, and returns the base-16 integer reading
of sha256(blake2b(sha512(joined bytes))) as the spec's formula states. -/
theorem claim_C1 (h512 hb2 h256 : List Nat → List Nat) (static dyn : List Src)
    (js : List Nat) :
    ∃ p : List Src, p.Perm (static ++ dyn) ∧
      generate_seed h512 hb2 h256 static dyn js = spec_seed_formula h512 hb2 h256 p := by
  refine ⟨fyShuffle (static ++ dyn) js, fyShuffle_perm _ _, ?_⟩
  unfold generate_seed spec_seed_formula
  rw [combinedPool_eq_append]

/-- C3: the seed-to-draw step is deterministic: the draw produced by
`make_draw` is a function of the derived seed alone (two executions agreeing
on the seed agree bit for bit); `make_draw` factors through the seed-to-draw
step; and within it the stars are sampled from exactly the generator state
left by sampling the numbers on the re-seeded stream. -/
theorem claim_C3 {σ : Type} (G : PRNG σ) (h512 hb2 h256 : List Nat → List Nat)
    (base dyn : List Src) (st st' : σ) (seed : Nat) :
    ((makeDraw G h512 hb2 h256 base dyn st).1.seed =
        (makeDraw G h512 hb2 h256 base dyn st').1.seed →
      makeDraw G h512 hb2 h256 base dyn st = makeDraw G h512 hb2 h256 base dyn st') ∧
    (makeDraw G h512 hb2 h256 base dyn st =
      sampleDraw G ((makeDraw G h512 hb2 h256 base dyn st).1.seed)) ∧
    (sampleDraw G seed =
      (⟨seed,
        List.insertionSort (· ≤ ·)
          (sampleAux G (List.range' 1 MAX_NUMBER) NUMBER_OF_NUMBERS (G.reseed seed)).1,
        List.insertionSort (· ≤ ·)
          (sampleAux G (List.range' 1 MAX_STAR) NUMBER_OF_STARS
            (sampleAux G (List.range' 1 MAX_NUMBER) NUMBER_OF_NUMBERS (G.reseed seed)).2).1⟩,
       (sampleAux G (List.range' 1 MAX_STAR) NUMBER_OF_STARS
         (sampleAux G (List.range' 1 MAX_NUMBER) NUMBER_OF_NUMBERS (G.reseed seed)).2).2)) := by
  refine ⟨?_, rfl, rfl⟩
  intro h
  calc makeDraw G h512 hb2 h256 base dyn st
      = sampleDraw G ((makeDraw G h512 hb2 h256 base dyn st).1.seed) := rfl
    _ = sampleDraw G ((makeDraw G h512 hb2 h256 base dyn st').1.seed) := by rw [h]
    _ = makeDraw G h512 hb2 h256 base dyn st' := rfl

/-- Witness for C3 at a concrete generator, pools and pair of states: with
both pool entries equal, every shuffle outcome joins to the same byte string,
so the two derived seeds agree and the two draws are identical. -/
theorem claim_C3_witness :
    makeDraw lcg id id id [[1]] [[1]] 0 = makeDraw lcg id id id [[1]] [[1]] 9 :=
  (claim_C3 lcg id id id [[1]] [[1]] 0 9 0).1 (by decide)

/-- C4: every draw produced by the seed-to-draw step has exactly
`NUMBER_OF_NUMBERS` distinct numbers in `[1, MAX_NUMBER]`, sorted strictly
increasing, and exactly `NUMBER_OF_STARS` distinct stars in `[1, MAX_STAR]`,
sorted strictly increasing. -/
theorem claim_C4 {σ : Type} (G : PRNG σ) (seed : Nat) :
    ((sampleDraw G seed).1.numbers.length = NUMBER_OF_NUMBERS ∧
     (sampleDraw G seed).1.numbers.Nodup ∧
     List.Sorted (· < ·) (sampleDraw G seed).1.numbers ∧
     ∀ v ∈ (sampleDraw G seed).1.numbers, 1 ≤ v ∧ v ≤ MAX_NUMBER) ∧
    ((sampleDraw G seed).1.stars.length = NUMBER_OF_STARS ∧
     (sampleDraw G seed).1.stars.Nodup ∧
     List.Sorted (· < ·) (sampleDraw G seed).1.stars ∧
     ∀ v ∈ (sampleDraw G seed).1.stars, 1 ≤ v ∧ v ≤ MAX_STAR) := by
  constructor
  · have h := sortedSample_props G MAX_NUMBER NUMBER_OF_NUMBERS (G.reseed seed)
      (by decide)
    simpa [sampleDraw] using h
  · have h := sortedSample_props G MAX_STAR NUMBER_OF_STARS
      (sampleAux G (List.range' 1 MAX_NUMBER) NUMBER_OF_NUMBERS (G.reseed seed)).2
      (by decide)
    simpa [sampleDraw] using h

/-- Folding base-16 digits accumulates to less than `(acc + 1) * 16 ^ count`. -/
theorem foldl_hexdigit_lt (ds : List Nat) :
    ∀ a, (∀ d ∈ ds, d < 16) →
      ds.foldl (fun x d => x * 16 + d) a < (a + 1) * 16 ^ ds.length := by
  induction ds with
  | nil => intro a _; simp [Nat.lt_succ_self a]
  | cons d ds ih =>
    intro a h
    have hd : d < 16 := h d (List.mem_cons_self d ds)
    have hrec := ih (a * 16 + d) (fun x hx => h x (List.mem_cons_of_mem d hx))
    have h2 : a * 16 + d + 1 ≤ (a + 1) * 16 := by omega
    calc (d :: ds).foldl (fun x d => x * 16 + d) a
        = ds.foldl (fun x d => x * 16 + d) (a * 16 + d) := rfl
      _ < (a * 16 + d + 1) * 16 ^ ds.length := hrec
      _ ≤ ((a + 1) * 16) * 16 ^ ds.length := Nat.mul_le_mul_right _ h2
      _ = (a + 1) * 16 ^ (d :: ds).length := by
          rw [List.length_cons, pow_succ]; ring

/-- The flattened hex digits of a byte list are twice as many as the bytes. -/
theorem length_flatMap_hexDigits (bs : List Nat) :
    (bs.flatMap hexDigits).length = 2 * bs.length := by
  induction bs with
  | nil => simp
  | cons b bs ih => simp [hexDigits, ih]; ring

/-- The integer read from the hex digest of a byte list is below
`16 ^ (2 * number of bytes)`. -/
theorem digestToInt_lt (bs : List Nat) (h : ∀ b ∈ bs, b < 256) :
    digestToInt bs < 16 ^ (2 * bs.length) := by
  unfold digestToInt
  have hd : ∀ d ∈ bs.flatMap hexDigits, d < 16 := by
    intro d hdm
    rw [List.mem_flatMap] at hdm
    obtain ⟨b, hb, hdb⟩ := hdm
    have hblt := h b hb
    simp only [hexDigits, List.mem_cons, List.not_mem_nil, or_false,
      List.mem_singleton] at hdb
    rcases hdb with rfl | rfl
    · exact (Nat.div_lt_iff_lt_mul (by norm_num)).2 (by omega)
    · exact Nat.mod_lt b (by norm_num)
  have hb := foldl_hexdigit_lt (bs.flatMap hexDigits) 0 hd
  rw [length_flatMap_hexDigits] at hb
  simpa using hb

/-- C9: the seed derivation is total over all pools (empty pools included as
a degenerate but legal input) and, given the 32-byte SHA-256 digest contract,
its result is a non-negative integer strictly below `2 ^ 256`. -/
theorem claim_C9 (h512 hb2 h256 : List Nat → List Nat) (base dyn : List Src)
    (js : List Nat)
    (hlen : ∀ x, (h256 x).length = 32)
    (hbyte : ∀ x, ∀ b ∈ h256 x, b < 256) :
    0 ≤ generate_seed h512 hb2 h256 base dyn js ∧
    generate_seed h512 hb2 h256 base dyn js < 2 ^ 256 := by
  refine ⟨Nat.zero_le _, ?_⟩
  unfold generate_seed
  have hbound := digestToInt_lt
    (h256 (hb2 (h512 ((fyShuffle (combinedPool base dyn) js).flatten))))
    (hbyte _)
  rw [hlen] at hbound
  have h16 : (16 : Nat) ^ (2 * 32) = 2 ^ 256 := by
    rw [show (16 : Nat) = 2 ^ 4 by norm_num, ← pow_mul]
  rw [h16] at hbound
  exact hbound

/-- Witness for C9 at a concrete 32-byte digest function and empty pools. -/
theorem claim_C9_witness :
    0 ≤ generate_seed id id (fun _ => List.replicate 32 0) [] [] [] ∧
    generate_seed id id (fun _ => List.replicate 32 0) [] [] [] < 2 ^ 256 :=
  claim_C9 id id (fun _ => List.replicate 32 0) [] [] []
    (fun _ => by simp)
    (fun _ b hb => by rw [List.eq_of_mem_replicate hb]; norm_num)

/-- C7: the verdict string is "likely random" exactly when the p-value is
strictly greater than the fixed 1/20 threshold, and "possibly biased"
otherwise; in particular a p-value of exactly 1/20 is assessed as
"possibly biased". -/
theorem claim_C7 :
    (∀ p : ℚ, (_assess_randomness p = "likely random" ↔ 1 / 20 < p) ∧
      (_assess_randomness p = "possibly biased" ↔ p ≤ 1 / 20)) ∧
    _assess_randomness (1 / 20) = "possibly biased" := by
  have hne : ("possibly biased" : String) ≠ "likely random" := by decide
  constructor
  · intro p
    by_cases h : 1 / 20 < p
    · constructor
      · simp [_assess_randomness, h]
      · simp only [_assess_randomness, if_pos h]
        exact iff_of_false (Ne.symm hne) (not_le.2 h)
    · constructor
      · simp only [_assess_randomness, if_neg h]
        exact iff_of_false hne h
      · simp [_assess_randomness, h, le_of_not_lt h]
  · simp [_assess_randomness]

/-- C5: with a non-degenerate configuration, `analyze_randomness` fails with
the empty-input error exactly when the batch has zero draws, and returns a
report (never a silently defaulted result) for every non-empty batch. -/
theorem claim_C5 (pv : ℚ → Nat → ℚ) (S : StatsAnalysis)
    (hnum : 0 < S.max_number) (hstar : 0 < S.max_star) (draws : List DrawRec) :
    (analyze_randomness pv S draws =
        Except.error "Cannot analyze randomness with empty draws list" ↔ draws = []) ∧
    (draws ≠ [] → ∃ r, analyze_randomness pv S draws = Except.ok r) := by
  have h1 : S.max_number ≠ 0 := Nat.pos_iff_ne_zero.1 hnum
  have h2 : S.max_star ≠ 0 := Nat.pos_iff_ne_zero.1 hstar
  cases draws with
  | nil => simp [analyze_randomness]
  | cons d ds =>
    constructor
    · simp [analyze_randomness, _analyze_dataset, h1, h2]
    · intro _
      cases hx : analyze_randomness pv S (d :: ds) with
      | error e =>
        exfalso
        simp [analyze_randomness, _analyze_dataset, h1, h2] at hx
      | ok r => exact ⟨r, rfl⟩

/-- Witness for C5: the reference configuration on a one-draw batch yields a
report. -/
theorem claim_C5_witness :
    ∃ r, analyze_randomness (fun _ _ => 0) ⟨50, 12, 5, 2⟩ [⟨0, [1], [1]⟩] =
      Except.ok r :=
  (claim_C5 (fun _ _ => 0) ⟨50, 12, 5, 2⟩ (by norm_num) (by norm_num)
    [⟨0, [1], [1]⟩]).2 (by simp)

/-- An indicator summed over a range that misses the value is zero. -/
theorem sum_indicator_range'_zero (v : Nat) :
    ∀ (s n : Nat), v < s →
      ((List.range' s n).map (fun m => if v = m then 1 else 0)).sum = 0 := by
  intro s n
  induction n generalizing s with
  | zero => intro _; simp
  | succ n ih =>
    intro h
    rw [List.range'_succ]
    simp only [List.map_cons, List.sum_cons]
    rw [if_neg (by omega), ih (s + 1) (by omega)]

/-- An indicator summed over a range containing the value is one. -/
theorem sum_indicator_range'_one (v : Nat) :
    ∀ (s n : Nat), s ≤ v → v < s + n →
      ((List.range' s n).map (fun m => if v = m then 1 else 0)).sum = 1 := by
  intro s n
  induction n generalizing s with
  | zero => intro h1 h2; omega
  | succ n ih =>
    intro h1 h2
    rw [List.range'_succ]
    simp only [List.map_cons, List.sum_cons]
    by_cases hv : v = s
    · rw [if_pos hv, sum_indicator_range'_zero v (s + 1) n (by omega)]
    · rw [if_neg hv, ih (s + 1) (by omega) (by omega)]

/-- Counting every value of the complete range tallies each element of the
value list exactly once. -/
theorem sum_counts_eq_length (maxV : Nat) :
    ∀ (values : List Nat), (∀ v ∈ values, 1 ≤ v ∧ v ≤ maxV) →
      ((List.range' 1 maxV).map (fun n => values.count n)).sum = values.length := by
  intro values
  induction values with
  | nil => intro _; simp
  | cons v vs ih =>
    intro h
    have hv := h v (List.mem_cons_self v vs)
    have hrec := ih (fun x hx => h x (List.mem_cons_of_mem v hx))
    simp only [List.count_cons, beq_iff_eq]
    rw [List.sum_map_add, hrec,
      sum_indicator_range'_one v 1 maxV (by omega) (by omega)]
    simp

/-- Flattening per-draw slot lists of a common length `k` gives `N * k`
values. -/
theorem flatMap_length_const (draws : List DrawRec) (f : DrawRec → List Nat)
    (k : Nat) (h : ∀ d ∈ draws, (f d).length = k) :
    (draws.flatMap f).length = draws.length * k := by
  induction draws with
  | nil => simp
  | cons d ds ih =>
    simp only [List.flatMap_cons, List.length_append, List.length_cons]
    rw [h d (List.mem_cons_self d ds), ih (fun x hx => h x (List.mem_cons_of_mem d hx))]
    ring

/-- C6: for every batch whose slot values lie in the class range, the
frequency table's domain is exactly the complete range `[1, max_value]`
(values never observed get an explicit zero entry) and its counts sum to
`N * k` for `N` draws with `k` slots each, for the numbers class and the
stars class alike. -/
theorem claim_C6 (draws : List DrawRec) (maxN maxS k1 k2 : Nat)
    (hn1 : ∀ d ∈ draws, d.numbers.length = k1)
    (hn2 : ∀ d ∈ draws, ∀ v ∈ d.numbers, 1 ≤ v ∧ v ≤ maxN)
    (hs1 : ∀ d ∈ draws, d.stars.length = k2)
    (hs2 : ∀ d ∈ draws, ∀ v ∈ d.stars, 1 ≤ v ∧ v ≤ maxS) :
    ((_calculate_frequencies (_extract_numbers_and_stars draws).1 maxN).map Prod.fst =
        List.range' 1 maxN) ∧
    (((_calculate_frequencies (_extract_numbers_and_stars draws).1 maxN).map Prod.snd).sum =
        draws.length * k1) ∧
    ((_calculate_frequencies (_extract_numbers_and_stars draws).2 maxS).map Prod.fst =
        List.range' 1 maxS) ∧
    (((_calculate_frequencies (_extract_numbers_and_stars draws).2 maxS).map Prod.snd).sum =
        draws.length * k2) := by
  have hmemN : ∀ v ∈ (_extract_numbers_and_stars draws).1, 1 ≤ v ∧ v ≤ maxN := by
    intro v hv
    rw [_extract_numbers_and_stars, List.mem_flatMap] at hv
    obtain ⟨d, hd, hvd⟩ := hv
    exact hn2 d hd v hvd
  have hmemS : ∀ v ∈ (_extract_numbers_and_stars draws).2, 1 ≤ v ∧ v ≤ maxS := by
    intro v hv
    rw [_extract_numbers_and_stars, List.mem_flatMap] at hv
    obtain ⟨d, hd, hvd⟩ := hv
    exact hs2 d hd v hvd
  have hfst : ∀ (vs : List Nat) (m : Nat),
      (_calculate_frequencies vs m).map Prod.fst = List.range' 1 m := by
    intro vs m
    simp [_calculate_frequencies, List.map_map, Function.comp_def]
  have hsnd : ∀ (vs : List Nat) (m : Nat),
      (_calculate_frequencies vs m).map Prod.snd =
        (List.range' 1 m).map fun n => vs.count n := by
    intro vs m
    simp [_calculate_frequencies, List.map_map, Function.comp_def]
  refine ⟨hfst _ _, ?_, hfst _ _, ?_⟩
  · rw [hsnd, sum_counts_eq_length maxN (_extract_numbers_and_stars draws).1 hmemN,
      _extract_numbers_and_stars]
    exact flatMap_length_const draws (fun d => d.numbers) k1 hn1
  · rw [hsnd, sum_counts_eq_length maxS (_extract_numbers_and_stars draws).2 hmemS,
      _extract_numbers_and_stars]
    exact flatMap_length_const draws (fun d => d.stars) k2 hs1

/-- Witness for C6: a two-draw batch with two number slots and one star slot
per draw. -/
theorem claim_C6_witness :
    ((_calculate_frequencies
        (_extract_numbers_and_stars [⟨0, [1, 2], [1]⟩, ⟨0, [2, 3], [2]⟩]).1 3).map
      Prod.snd).sum = 2 * 2 :=
  (claim_C6 [⟨0, [1, 2], [1]⟩, ⟨0, [2, 3], [2]⟩] 3 2 2 1
    (by decide) (by decide) (by decide) (by decide)).2.1

/-- The batch loop produces exactly one draw per iteration. -/
theorem genFrom_length {σ : Type} (G : PRNG σ) (h512 hb2 h256 : List Nat → List Nat)
    (base : List Src) (dyns : Nat → List Src) :
    ∀ (n : Nat) (st : σ) (j : Nat),
      (genFrom G h512 hb2 h256 base dyns st j n).1.length = n := by
  intro n
  induction n with
  | zero => intro st j; simp [genFrom]
  | succ n ih =>
    intro st j
    simp only [genFrom, List.length_cons]
    rw [ih]

/-- The `i`-th draw of the batch loop is produced by `make_draw` from the
shared static pool, the `i`-th dynamic pool and the generator state left by
the previous iterations. -/
theorem genFrom_get {σ : Type} (G : PRNG σ) (h512 hb2 h256 : List Nat → List Nat)
    (base : List Src) (dyns : Nat → List Src) :
    ∀ (n : Nat) (st : σ) (j i : Nat), i < n →
      (genFrom G h512 hb2 h256 base dyns st j n).1[i]? =
        some (makeDraw G h512 hb2 h256 base (dyns (j + i))
          ((genFrom G h512 hb2 h256 base dyns st j i).2)).1 := by
  intro n
  induction n with
  | zero => intro st j i h; omega
  | succ n ih =>
    intro st j i h
    cases i with
    | zero => simp [genFrom]
    | succ i =>
      have hrec := ih ((makeDraw G h512 hb2 h256 base (dyns j) st).2) (j + 1) i
        (by omega)
      have hadd : j + 1 + i = j + (i + 1) := by omega
      rw [hadd] at hrec
      simp only [genFrom, List.getElem?_cons_succ]
      exact hrec

/-- C8: `generate_draws` returns a batch of exactly `n` draws, tolerates
`n = 0` by returning the empty batch unchanged, and produces its `i`-th draw
by `make_draw` from the one shared static pool and the `i`-th fresh dynamic
pool. -/
theorem claim_C8 {σ : Type} (G : PRNG σ) (h512 hb2 h256 : List Nat → List Nat)
    (static : List Src) (dyns : Nat → List Src) (st : σ) (n : Nat) :
    ((generate_draws G h512 hb2 h256 static dyns st n).1.length = n) ∧
    (generate_draws G h512 hb2 h256 static dyns st 0 = ([], st)) ∧
    ∀ i, i < n →
      (generate_draws G h512 hb2 h256 static dyns st n).1[i]? =
        some (makeDraw G h512 hb2 h256 static (dyns i)
          ((generate_draws G h512 hb2 h256 static dyns st i).2)).1 := by
  refine ⟨genFrom_length G h512 hb2 h256 static dyns n st 0, rfl, ?_⟩
  intro i hi
  have h := genFrom_get G h512 hb2 h256 static dyns n st 0 i hi
  rw [Nat.zero_add] at h
  exact h

/-- Witness for C8: the second draw of a concrete two-draw batch is built by
`make_draw` from the shared static pool and its own dynamic pool. -/
theorem claim_C8_witness :
    (generate_draws lcg id id id [[1]] (fun _ => [[2]]) 0 2).1[1]? =
      some (makeDraw lcg id id id [[1]] [[2]]
        ((generate_draws lcg id id id [[1]] (fun _ => [[2]]) 0 1).2)).1 :=
  (claim_C8 lcg id id id [[1]] (fun _ => [[2]]) 0 2).2.2 1 (by norm_num)

/-- C2 counterexample: the permutation used by the next draw's shuffle is NOT
independent of the seed previously derived in the batch.  With every ambient
input fixed (same generator, same initial state, same pools), changing only
the value of the first derived seed (via the final digest function) changes
the random indices that the second draw's shuffle consumes, because
`make_draw` re-seeds the one shared module-level generator with each derived
seed. -/
theorem claim_C2_counterexample :
    (drawJs lcg ((makeDraw lcg id id (fun _ => [0]) [[1]] [[2]] 0).2) 1).1 ≠
    (drawJs lcg ((makeDraw lcg id id (fun _ => [1]) [[1]] [[2]] 0).2) 1).1 := by
  decide

/-- C2 (amended): the shuffle is positional — the permutation it applies is
independent of the pool contents — and distinct shuffle randomness can give
distinct seeds for identical pools; but the generator feeding the shuffle is
the single module-level one, re-seeded by `make_draw` with each derived seed,
so the generator state left for the next draw (and hence its permutation) is
a deterministic function of the previously derived seed alone. -/
theorem claim_C2 {σ : Type} (G : PRNG σ) (h512 hb2 h256 : List Nat → List Nat)
    (base dyn : List Src) (st st' : σ) :
    (∀ (f : Src → Src) (l : List Src) (js : List Nat),
      fyShuffle (l.map f) js = (fyShuffle l js).map f) ∧
    (∃ js js' : List Nat,
      generate_seed id id id [[0], [1]] [] js ≠
        generate_seed id id id [[0], [1]] [] js') ∧
    ((makeDraw G h512 hb2 h256 base dyn st).1.seed =
        (makeDraw G h512 hb2 h256 base dyn st').1.seed →
      (makeDraw G h512 hb2 h256 base dyn st).2 =
        (makeDraw G h512 hb2 h256 base dyn st').2) := by
  refine ⟨fun f l js => fyShuffle_map f l js, ⟨[1], [0], by decide⟩, ?_⟩
  intro h
  calc (makeDraw G h512 hb2 h256 base dyn st).2
      = (sampleDraw G ((makeDraw G h512 hb2 h256 base dyn st).1.seed)).2 := rfl
    _ = (sampleDraw G ((makeDraw G h512 hb2 h256 base dyn st').1.seed)).2 := by rw [h]
    _ = (makeDraw G h512 hb2 h256 base dyn st').2 := rfl

/-- Witness for C2 at a concrete generator and pools: equal derived seeds
force identical post-call generator states even from different prior
states. -/
theorem claim_C2_witness :
    (makeDraw lcg id id id [[1]] [[1]] 3).2 = (makeDraw lcg id id id [[1]] [[1]] 7).2 :=
  (claim_C2 lcg id id id [[1]] [[1]] 3 7).2.2 (by decide)

/-- The heap-level seed derivation writes only the freshly allocated cell:
the caller's `base_pool` cell is untouched, the seed agrees with the pure
`generate_seed` of the cell's contents, and the heap grows by one cell. -/
theorem generateSeedHeap_spec (h512 hb2 h256 : List Nat → List Nat) (js : List Nat)
    (heap : List Cell) (baseRef : Nat) (dyn : List Src) (h : baseRef < heap.length) :
    ((generateSeedHeap h512 hb2 h256 js heap baseRef dyn).2.getD baseRef [] =
      heap.getD baseRef []) ∧
    ((generateSeedHeap h512 hb2 h256 js heap baseRef dyn).1 =
      generate_seed h512 hb2 h256 (heap.getD baseRef []) dyn js) ∧
    ((generateSeedHeap h512 hb2 h256 js heap baseRef dyn).2.length = heap.length + 1) := by
  have hne : heap.length ≠ baseRef := by omega
  refine ⟨?_, rfl, ?_⟩
  · show (((heap ++ [_]).set heap.length _).set heap.length _).getD baseRef [] = _
    rw [List.getD_eq_getElem?_getD, List.getElem?_set_ne hne, List.getElem?_set_ne hne,
      List.getElem?_append_left h, ← List.getD_eq_getElem?_getD]
  · show (((heap ++ [_]).set heap.length _).set heap.length _).length = _
    simp

/-- The heap-level `make_draw` writes only the cell its seed derivation
allocates, and its draw and final generator state agree with the pure
`make_draw` run on the static cell's contents. -/
theorem makeDrawHeap_spec {σ : Type} (G : PRNG σ) (h512 hb2 h256 : List Nat → List Nat)
    (heap : List Cell) (baseRef : Nat) (dyn : List Src) (st : σ)
    (h : baseRef < heap.length) :
    ((makeDrawHeap G h512 hb2 h256 heap baseRef dyn st).2.1.getD baseRef [] =
      heap.getD baseRef []) ∧
    ((makeDrawHeap G h512 hb2 h256 heap baseRef dyn st).2.1.length = heap.length + 1) ∧
    ((makeDrawHeap G h512 hb2 h256 heap baseRef dyn st).1 =
      (makeDraw G h512 hb2 h256 (heap.getD baseRef []) dyn st).1) ∧
    ((makeDrawHeap G h512 hb2 h256 heap baseRef dyn st).2.2 =
      (makeDraw G h512 hb2 h256 (heap.getD baseRef []) dyn st).2) := by
  have hs := generateSeedHeap_spec h512 hb2 h256
    (drawJs G st ((combinedPool (heap.getD baseRef []) dyn).length - 1)).1
    heap baseRef dyn h
  exact ⟨hs.1, hs.2.2, rfl, rfl⟩

/-- The heap-level batch loop never writes the static pool's cell, and every
draw it yields agrees with the pure loop run on that cell's initial
contents: all iterations observe the identical static pool. -/
theorem genFromHeap_spec {σ : Type} (G : PRNG σ) (h512 hb2 h256 : List Nat → List Nat)
    (baseRef : Nat) (dyns : Nat → List Src) :
    ∀ (n : Nat) (heap : List Cell) (st : σ) (j : Nat), baseRef < heap.length →
      ((genFromHeap G h512 hb2 h256 baseRef dyns heap st j n).2.1.getD baseRef [] =
        heap.getD baseRef []) ∧
      ((genFromHeap G h512 hb2 h256 baseRef dyns heap st j n).1 =
        (genFrom G h512 hb2 h256 (heap.getD baseRef []) dyns st j n).1) ∧
      ((genFromHeap G h512 hb2 h256 baseRef dyns heap st j n).2.2 =
        (genFrom G h512 hb2 h256 (heap.getD baseRef []) dyns st j n).2) := by
  intro n
  induction n with
  | zero => intro heap st j h; exact ⟨rfl, rfl, rfl⟩
  | succ n ih =>
    intro heap st j h
    have hmd := makeDrawHeap_spec G h512 hb2 h256 heap baseRef (dyns j) st h
    have hlt' : baseRef < (makeDrawHeap G h512 hb2 h256 heap baseRef (dyns j) st).2.1.length := by
      rw [hmd.2.1]; omega
    have hih := ih ((makeDrawHeap G h512 hb2 h256 heap baseRef (dyns j) st).2.1)
      ((makeDrawHeap G h512 hb2 h256 heap baseRef (dyns j) st).2.2) (j + 1) hlt'
    rw [hmd.1] at hih
    refine ⟨hih.1, ?_, ?_⟩
    · show (makeDrawHeap G h512 hb2 h256 heap baseRef (dyns j) st).1 ::
        (genFromHeap G h512 hb2 h256 baseRef dyns _ _ (j + 1) n).1 = _
      rw [hih.2.1, hmd.2.2.1, hmd.2.2.2]
      rfl
    · show (genFromHeap G h512 hb2 h256 baseRef dyns _ _ (j + 1) n).2.2 = _
      rw [hih.2.2, hmd.2.2.2]
      rfl

/-- C10: deriving a seed and sampling draws never mutate the static pool's
cell: after `generate_seed`, `make_draw` or a whole `generate_draws` batch,
the cell holds the same strings in the same order as before the call (the
source copies the pool and shuffles only the copy), the derived seed agrees
with the pure derivation from the pool's contents, and every draw of the
batch observes the identical static pool. -/
theorem claim_C10 {σ : Type} (G : PRNG σ) (h512 hb2 h256 : List Nat → List Nat)
    (heap : List Cell) (baseRef : Nat) (dyn : List Src) (dyns : Nat → List Src)
    (js : List Nat) (st : σ) (n : Nat) (h : baseRef < heap.length) :
    ((generateSeedHeap h512 hb2 h256 js heap baseRef dyn).2.getD baseRef [] =
      heap.getD baseRef []) ∧
    ((generateSeedHeap h512 hb2 h256 js heap baseRef dyn).1 =
      generate_seed h512 hb2 h256 (heap.getD baseRef []) dyn js) ∧
    ((makeDrawHeap G h512 hb2 h256 heap baseRef dyn st).2.1.getD baseRef [] =
      heap.getD baseRef []) ∧
    ((generate_draws_heap G h512 hb2 h256 baseRef dyns heap st n).2.1.getD baseRef [] =
      heap.getD baseRef []) ∧
    ((generate_draws_heap G h512 hb2 h256 baseRef dyns heap st n).1 =
      (generate_draws G h512 hb2 h256 (heap.getD baseRef []) dyns st n).1) := by
  have hs := generateSeedHeap_spec h512 hb2 h256 js heap baseRef dyn h
  have hmd := makeDrawHeap_spec G h512 hb2 h256 heap baseRef dyn st h
  have hgf := genFromHeap_spec G h512 hb2 h256 baseRef dyns n heap st 0 h
  exact ⟨hs.1, hs.2.1, hmd.1, hgf.1, hgf.2.1⟩

/-- Witness for C10 on a concrete one-cell heap holding a static pool. -/
theorem claim_C10_witness :
    (generate_draws_heap lcg id id id 0 (fun _ => [[2]]) [[[9]]] 0 2).2.1.getD 0 [] =
      ([[[9]]] : List Cell).getD 0 [] :=
  (claim_C10 lcg id id id [[[9]]] 0 [[3]] (fun _ => [[2]]) [] 0 2
    (by norm_num)).2.2.2.1

/-- Witness for C4 at the concrete generator and seed 0: the drawn value 1 is
in the numbers range. -/
theorem claim_C4_witness :
    1 ≤ (1 : Nat) ∧ (1 : Nat) ≤ MAX_NUMBER :=
  (claim_C4 lcg 0).1.2.2.2 1 (by decide)
